import Mathlib

/-!
Shallow embedding of the commitment computation layer of `src/mpts/deoxys/lib.rs`:
the state-diff aggregator `build_commitment_state_diff`, the commitment composer
`calculate_state_root`, and the two fork-join orchestrators
`calculate_tx_and_event_commitments` and `update_state_root`.

Field elements are embedded as `Nat` (a Rust `FieldElement` is always reduced
below the Stark prime; theorems that depend on this carry it as a hypothesis).
The fallible narrowing conversions (`from_field_element`) and the external hash
primitives and trie/hash-tree builders are not part of the visible source;
narrowing is modelled from the spec as `Option`-valued, and the external
collaborators are taken as function parameters.  Rust panics (`expect`,
`unwrap` on failing conversions) are embedded as `Option.none` propagation.
-/

/-- Stark field prime: every raw field element is a natural number below it. -/
def STARK_PRIME : Nat := 2 ^ 251 + 17 * 2 ^ 192 + 1

/-- Upper bound for Patricia-trie keys (contract addresses and storage keys)
in the height-251 tries. -/
def PATRICIA_KEY_UPPER_BOUND : Nat := 2 ^ 251

/-- Modelled from the spec: narrowing a field element into a contract address
(a Patricia key) fails when the value exceeds the type's valid range. -/
def contract_address_from_field_element (x : Nat) : Option Nat :=
  if x < PATRICIA_KEY_UPPER_BOUND then some x else none

/-- Modelled from the spec: narrowing a field element into a storage key
(a Patricia key) fails when the value exceeds the type's valid range. -/
def storage_key_from_field_element (x : Nat) : Option Nat :=
  if x < PATRICIA_KEY_UPPER_BOUND then some x else none

/-- Modelled from the spec: narrowing a field element into a class hash
fails when the value exceeds the field's range. -/
def class_hash_from_field_element (x : Nat) : Option Nat :=
  if x < STARK_PRIME then some x else none

/-- Modelled from the spec: narrowing a field element into a compiled class
hash fails when the value exceeds the field's range. -/
def compiled_class_hash_from_field_element (x : Nat) : Option Nat :=
  if x < STARK_PRIME then some x else none

/-- Modelled from the spec: narrowing a field element into a nonce fails when
the value exceeds the field's range. -/
def nonce_from_field_element (x : Nat) : Option Nat :=
  if x < STARK_PRIME then some x else none

/-- Modelled from the spec: narrowing a field element into a storage value
(StarkFelt) fails when the value exceeds the field's range. -/
def stark_felt_from_field_element (x : Nat) : Option Nat :=
  if x < STARK_PRIME then some x else none

/-- Insertion-ordered map (IndexMap) embedded as an association list:
`insert` replaces the value in place when the key is present (keeping the
original position) and appends otherwise. -/
def imInsert {β : Type} : List (Nat × β) → Nat → β → List (Nat × β)
  | [], k, v => [(k, v)]
  | (k', v') :: rest, k, v =>
    if k' = k then (k, v) :: rest else (k', v') :: imInsert rest k v

/-- Lookup in the insertion-ordered map. -/
def imLookup {β : Type} : List (Nat × β) → Nat → Option β
  | [], _ => none
  | (k', v') :: rest, k => if k' = k then some v' else imLookup rest k

/-- Keys of the insertion-ordered map, in order. -/
def imKeys {β : Type} (m : List (Nat × β)) : List Nat := m.map Prod.fst

/-- A `deployed_contracts` entry of the raw state update. -/
structure DeployedContractItem where
  address : Nat
  class_hash : Nat
deriving DecidableEq, Repr

/-- A `replaced_classes` entry of the raw state update. -/
structure ReplacedClassItem where
  contract_address : Nat
  class_hash : Nat
deriving DecidableEq, Repr

/-- A `declared_classes` entry of the raw state update. -/
structure DeclaredClassItem where
  class_hash : Nat
  compiled_class_hash : Nat
deriving DecidableEq, Repr

/-- A `nonces` entry of the raw state update. -/
structure NonceUpdate where
  contract_address : Nat
  nonce : Nat
deriving DecidableEq, Repr

/-- One storage (key, value) pair within a storage-diff group. -/
structure StorageEntry where
  key : Nat
  value : Nat
deriving DecidableEq, Repr

/-- A `storage_diffs` group of the raw state update. -/
structure ContractStorageDiffItem where
  address : Nat
  storage_entries : List StorageEntry
deriving DecidableEq, Repr

/-- The five unordered collections of a raw state update (`StateDiff`). -/
structure StateDiff where
  deployed_contracts : List DeployedContractItem
  replaced_classes : List ReplacedClassItem
  declared_classes : List DeclaredClassItem
  nonces : List NonceUpdate
  storage_diffs : List ContractStorageDiffItem
deriving DecidableEq, Repr

/-- The raw state update fetched from the sequencer. -/
structure StateUpdate where
  state_diff : StateDiff
deriving DecidableEq, Repr

/-- The canonical aggregated diff: four insertion-ordered, key-unique maps. -/
structure CommitmentStateDiff where
  address_to_class_hash : List (Nat × Nat)
  address_to_nonce : List (Nat × Nat)
  storage_updates : List (Nat × List (Nat × Nat))
  class_hash_to_compiled_class_hash : List (Nat × Nat)
deriving DecidableEq, Repr

/-- Body of the `deployed_contracts` loop of `build_commitment_state_diff`:
narrow the address, force the class hash to zero for the system (zero)
address, otherwise narrow the supplied class hash, and insert. -/
def applyDeployedContract (csd : CommitmentStateDiff) (it : DeployedContractItem) :
    Option CommitmentStateDiff := do
  let address ← contract_address_from_field_element it.address
  let zero_address ← contract_address_from_field_element 0
  let class_hash ←
    if address = zero_address then
      class_hash_from_field_element 0
    else
      class_hash_from_field_element it.class_hash
  pure { csd with
    address_to_class_hash := imInsert csd.address_to_class_hash address class_hash }

/-- Body of the `replaced_classes` loop of `build_commitment_state_diff`:
narrow address and class hash and insert (no zero-address special case). -/
def applyReplacedClass (csd : CommitmentStateDiff) (it : ReplacedClassItem) :
    Option CommitmentStateDiff := do
  let address ← contract_address_from_field_element it.contract_address
  let class_hash ← class_hash_from_field_element it.class_hash
  pure { csd with
    address_to_class_hash := imInsert csd.address_to_class_hash address class_hash }

/-- Body of the `declared_classes` loop of `build_commitment_state_diff`. -/
def applyDeclaredClass (csd : CommitmentStateDiff) (it : DeclaredClassItem) :
    Option CommitmentStateDiff := do
  let class_hash ← class_hash_from_field_element it.class_hash
  let compiled_class_hash ← compiled_class_hash_from_field_element it.compiled_class_hash
  pure { csd with
    class_hash_to_compiled_class_hash :=
      imInsert csd.class_hash_to_compiled_class_hash class_hash compiled_class_hash }

/-- Body of the `nonces` loop of `build_commitment_state_diff`. -/
def applyNonceUpdate (csd : CommitmentStateDiff) (it : NonceUpdate) :
    Option CommitmentStateDiff := do
  let contract_address ← contract_address_from_field_element it.contract_address
  let nonce_value ← nonce_from_field_element it.nonce
  pure { csd with
    address_to_nonce := imInsert csd.address_to_nonce contract_address nonce_value }

/-- Inner loop of the `storage_diffs` loop: build the fresh per-contract
storage map from the group's entries. -/
def buildStorageMap (entries : List StorageEntry) : Option (List (Nat × Nat)) :=
  entries.foldlM
    (fun storage_map e => do
      let key ← storage_key_from_field_element e.key
      let value ← stark_felt_from_field_element e.value
      pure (imInsert storage_map key value))
    []

/-- Body of the `storage_diffs` loop of `build_commitment_state_diff`: narrow
the group address, build its storage map, and insert the whole map. -/
def applyStorageDiff (csd : CommitmentStateDiff) (it : ContractStorageDiffItem) :
    Option CommitmentStateDiff := do
  let contract_address ← contract_address_from_field_element it.address
  let storage_map ← buildStorageMap it.storage_entries
  pure { csd with
    storage_updates := imInsert csd.storage_updates contract_address storage_map }

/-- Aggregates all the changes from the last state update: the five category
loops of `build_commitment_state_diff`, in source order, starting from four
empty maps.  A narrowing failure anywhere aborts the whole aggregation. -/
def build_commitment_state_diff (state_update : StateUpdate) :
    Option CommitmentStateDiff := do
  let csd0 : CommitmentStateDiff := ⟨[], [], [], []⟩
  let csd1 ← state_update.state_diff.deployed_contracts.foldlM applyDeployedContract csd0
  let csd2 ← state_update.state_diff.replaced_classes.foldlM applyReplacedClass csd1
  let csd3 ← state_update.state_diff.declared_classes.foldlM applyDeclaredClass csd2
  let csd4 ← state_update.state_diff.nonces.foldlM applyNonceUpdate csd3
  state_update.state_diff.storage_diffs.foldlM applyStorageDiff csd4

/-- The ASCII bytes of the domain-separation tag string "STARKNET_STATE_V0". -/
def starknet_state_v0_bytes : List Nat :=
  "STARKNET_STATE_V0".toList.map Char.toNat

/-- Modelled from the spec: `Felt252Wrapper::try_from(&[u8])` narrows a
big-endian byte string into a field element, failing when the value exceeds
the field's range. -/
def felt_from_be_bytes (bs : List Nat) : Option Nat :=
  let n := bs.foldl (fun acc b => acc * 256 + b) 0
  if n < STARK_PRIME then some n else none

/-- The domain-separation constant of `calculate_state_root`: the field
element the ASCII tag narrows to (the `unwrap` in the source never fails). -/
def starknet_state_v0_tag : Nat :=
  starknet_state_v0_bytes.foldl (fun acc b => acc * 256 + b) 0

/-- Calculate the state commitment hash value, parameterized by the hash
primitive's `compute_hash_on_elements` (the `HasherT` type parameter of the
source).  Zero classes-trie root short-circuits to the contracts-trie root. -/
def calculate_state_root (H : List Nat → Nat)
    (contracts_trie_root classes_trie_root : Nat) : Nat :=
  if classes_trie_root = 0 then
    contracts_trie_root
  else
    H [starknet_state_v0_tag, contracts_trie_root, classes_trie_root]

/-- Update the state commitment hash value: run the two trie updates (both
must succeed; an `expect` failure is embedded as `none`) and compose the
roots. The external trie engine and the Poseidon hasher are parameters. -/
def update_state_root
    (contract_trie_root class_trie_root : CommitmentStateDiff → Nat → Option Nat)
    (poseidon : List Nat → Nat)
    (csd : CommitmentStateDiff) (block_number : Nat) : Option Nat := do
  let c ← contract_trie_root csd block_number
  let k ← class_trie_root csd block_number
  pure (calculate_state_root poseidon c k)

/-- Calculate the transaction and event commitment: fork-join of the two
external hash-tree builds; either `expect` failing aborts the whole call. -/
def calculate_tx_and_event_commitments {Tx Ev : Type}
    (memory_transaction_commitment : List Tx → Nat → Nat → Option Nat)
    (memory_event_commitment : List Ev → Option Nat)
    (transactions : List Tx) (events : List Ev)
    (chain_id : Nat) (block_number : Nat) : Option (Nat × Nat) := do
  let commitment_tx ← memory_transaction_commitment transactions chain_id block_number
  let commitment_event ← memory_event_commitment events
  pure (commitment_tx, commitment_event)

/-- Key-uniqueness of the four maps of a Commitment State Diff, including
every per-contract storage map. -/
def csd_keys_unique (csd : CommitmentStateDiff) : Prop :=
  (imKeys csd.address_to_class_hash).Nodup ∧
  (imKeys csd.address_to_nonce).Nodup ∧
  (imKeys csd.storage_updates).Nodup ∧
  (imKeys csd.class_hash_to_compiled_class_hash).Nodup ∧
  ∀ p ∈ csd.storage_updates, (imKeys p.2).Nodup

/-- Type invariant of the raw input: every field element of the state update
is a reduced Stark field element (a Rust `FieldElement` is always below the
prime). -/
def state_update_felts_valid (su : StateUpdate) : Prop :=
  (∀ it ∈ su.state_diff.deployed_contracts,
    it.address < STARK_PRIME ∧ it.class_hash < STARK_PRIME) ∧
  (∀ it ∈ su.state_diff.replaced_classes,
    it.contract_address < STARK_PRIME ∧ it.class_hash < STARK_PRIME) ∧
  (∀ it ∈ su.state_diff.declared_classes,
    it.class_hash < STARK_PRIME ∧ it.compiled_class_hash < STARK_PRIME) ∧
  (∀ it ∈ su.state_diff.nonces,
    it.contract_address < STARK_PRIME ∧ it.nonce < STARK_PRIME) ∧
  (∀ it ∈ su.state_diff.storage_diffs,
    it.address < STARK_PRIME ∧
      ∀ e ∈ it.storage_entries, e.key < STARK_PRIME ∧ e.value < STARK_PRIME)

/-- The state update contains a field element whose narrowing into its target
fixed-width domain type (address, class hash, nonce, storage key, or value)
fails. -/
def has_narrowing_failure (su : StateUpdate) : Prop :=
  (∃ it ∈ su.state_diff.deployed_contracts,
    contract_address_from_field_element it.address = none ∨
      class_hash_from_field_element it.class_hash = none) ∨
  (∃ it ∈ su.state_diff.replaced_classes,
    contract_address_from_field_element it.contract_address = none ∨
      class_hash_from_field_element it.class_hash = none) ∨
  (∃ it ∈ su.state_diff.declared_classes,
    class_hash_from_field_element it.class_hash = none ∨
      compiled_class_hash_from_field_element it.compiled_class_hash = none) ∨
  (∃ it ∈ su.state_diff.nonces,
    contract_address_from_field_element it.contract_address = none ∨
      nonce_from_field_element it.nonce = none) ∨
  (∃ it ∈ su.state_diff.storage_diffs,
    contract_address_from_field_element it.address = none ∨
      ∃ e ∈ it.storage_entries,
        storage_key_from_field_element e.key = none ∨
          stark_felt_from_field_element e.value = none)

/-! Helper lemmas about `Option`-monad folds and the insertion-ordered map. -/

theorem foldlM_option_cons {α β : Type} (f : β → α → Option β) (x : α) (t : List α)
    (init : β) :
    (x :: t).foldlM f init = (f init x).bind fun b => t.foldlM f b := by
  simp [List.foldlM]

theorem foldlM_option_append {α β : Type} (f : β → α → Option β) (l₁ l₂ : List α)
    (init : β) :
    (l₁ ++ l₂).foldlM f init = (l₁.foldlM f init).bind fun b => l₂.foldlM f b := by
  induction l₁ generalizing init with
  | nil => simp [List.foldlM]
  | cons x t ih => simp [List.foldlM]; cases f init x <;> simp [ih]

theorem foldlM_option_cons_some {α β : Type} {f : β → α → Option β} {x : α}
    {t : List α} {init res : β} (h : (x :: t).foldlM f init = some res) :
    ∃ b, f init x = some b ∧ t.foldlM f b = some res := by
  rw [foldlM_option_cons] at h
  cases hx : f init x with
  | none => rw [hx] at h; simp at h
  | some b => rw [hx] at h; exact ⟨b, rfl, h⟩

theorem foldlM_option_inv {α β : Type} (f : β → α → Option β) (P : β → Prop) :
    ∀ (l : List α) (init res : β),
      (∀ b x b', x ∈ l → f b x = some b' → P b → P b') →
      l.foldlM f init = some res → P init → P res := by
  intro l
  induction l with
  | nil =>
    intro init res _ hfold hP
    simp [List.foldlM] at hfold
    exact hfold ▸ hP
  | cons x t ih =>
    intro init res hstep hfold hP
    obtain ⟨b, hx, ht⟩ := foldlM_option_cons_some hfold
    exact ih b res (fun b' y b'' hy => hstep b' y b'' (List.mem_cons_of_mem x hy)) ht
      (hstep init x b (List.mem_cons_self x t) hx hP)

theorem foldlM_option_none {α β : Type} (f : β → α → Option β) (x : α)
    (hf : ∀ b, f b x = none) :
    ∀ (l : List α) (init : β), x ∈ l → l.foldlM f init = none := by
  intro l
  induction l with
  | nil => intro init hmem; simp at hmem
  | cons y t ih =>
    intro init hmem
    rw [foldlM_option_cons]
    rcases List.mem_cons.mp hmem with heq | hmem'
    · subst heq; rw [hf init]; rfl
    · cases hy : f init y with
      | none => rfl
      | some b => simpa using ih b hmem'

theorem imLookup_imInsert_self {β : Type} (m : List (Nat × β)) (k : Nat) (v : β) :
    imLookup (imInsert m k v) k = some v := by
  induction m with
  | nil => simp [imInsert, imLookup]
  | cons p rest ih =>
    obtain ⟨k', v'⟩ := p
    by_cases h : k' = k <;> simp [imInsert, imLookup, h, ih]

theorem imLookup_imInsert_ne {β : Type} (m : List (Nat × β)) (k a : Nat) (v : β)
    (h : a ≠ k) :
    imLookup (imInsert m k v) a = imLookup m a := by
  induction m with
  | nil => simp [imInsert, imLookup, Ne.symm h]
  | cons p rest ih =>
    obtain ⟨k', v'⟩ := p
    by_cases hk : k' = k
    · subst hk
      simp [imInsert, imLookup, Ne.symm h]
    · by_cases ha : k' = a <;> simp [imInsert, imLookup, hk, ha, ih, h]

theorem mem_imKeys_imInsert {β : Type} (m : List (Nat × β)) (k a : Nat) (v : β) :
    a ∈ imKeys (imInsert m k v) ↔ a = k ∨ a ∈ imKeys m := by
  induction m with
  | nil => simp [imInsert, imKeys]
  | cons p rest ih =>
    obtain ⟨k', v'⟩ := p
    by_cases hk : k' = k
    · subst hk
      simp [imInsert, imKeys]
    · simp [imInsert, imKeys, hk] at ih ⊢
      tauto

theorem imKeys_nodup_imInsert {β : Type} (m : List (Nat × β)) (k : Nat) (v : β)
    (h : (imKeys m).Nodup) : (imKeys (imInsert m k v)).Nodup := by
  induction m with
  | nil => simp [imInsert, imKeys]
  | cons p rest ih =>
    obtain ⟨k', v'⟩ := p
    rw [imKeys, List.map_cons, List.nodup_cons] at h
    by_cases hk : k' = k
    · subst hk
      have hins : imInsert ((k', v') :: rest) k' v = (k', v) :: rest := by
        simp [imInsert]
      rw [hins, imKeys, List.map_cons, List.nodup_cons]
      exact h
    · have h2 := ih h.2
      simp only [imInsert, if_neg hk, imKeys, List.map_cons, List.nodup_cons]
      refine ⟨?_, h2⟩
      intro hmem
      rcases (mem_imKeys_imInsert rest k k' v).mp hmem with heq | hmem'
      · exact hk heq
      · exact h.1 hmem'

/-- C1: for every contracts-trie root `r`, the composer with classes-trie root
zero returns `r` verbatim, and the hash primitive is not invoked on this
branch: the result is the same for every hash function. -/
theorem composer_zero_classes_shortcut (H H' : List Nat → Nat) (r : Nat) :
    calculate_state_root H r 0 = r ∧
      calculate_state_root H r 0 = calculate_state_root H' r 0 := by
  constructor <;> simp [calculate_state_root]

/-- C2: for every non-zero classes-trie root, the composer returns the hash of
the 3-tuple (domain tag, contracts root, classes root) in that order, and the
domain tag is the field element the ASCII string "STARKNET_STATE_V0" narrows
to (the narrowing succeeds and yields exactly the tag). -/
theorem composer_nonzero_hashes_tagged_triple (H : List Nat → Nat) (r c : Nat)
    (hc : c ≠ 0) :
    calculate_state_root H r c = H [starknet_state_v0_tag, r, c] ∧
      felt_from_be_bytes starknet_state_v0_bytes = some starknet_state_v0_tag := by
  refine ⟨by simp [calculate_state_root, hc], by decide⟩

/-- Witness for C2 at the concrete roots r = 2, c = 3 with a concrete hash. -/
theorem composer_nonzero_hashes_tagged_triple_witness :
    (3 : Nat) ≠ 0 ∧
      (calculate_state_root (fun l => l.foldl (· + ·) 0) 2 3 =
          (fun l : List Nat => l.foldl (· + ·) 0) [starknet_state_v0_tag, 2, 3] ∧
        felt_from_be_bytes starknet_state_v0_bytes = some starknet_state_v0_tag) :=
  ⟨by decide, composer_nonzero_hashes_tagged_triple (fun l => l.foldl (· + ·) 0) 2 3
    (by decide)⟩

/-- C7: if either trie update fails, `update_state_root` reports the failure
and returns no state root at all (so no root derived from only one trie). -/
theorem update_state_root_fatal_on_single_trie_failure
    (contract_trie_root class_trie_root : CommitmentStateDiff → Nat → Option Nat)
    (poseidon : List Nat → Nat) (csd : CommitmentStateDiff) (block_number : Nat)
    (h : contract_trie_root csd block_number = none ∨
      class_trie_root csd block_number = none) :
    update_state_root contract_trie_root class_trie_root poseidon csd block_number =
      none := by
  rcases h with h | h
  · simp [update_state_root, h]
  · cases hf : contract_trie_root csd block_number <;>
      simp [update_state_root, hf, h]

/-- Witness for C7: a trie engine whose classes-trie update fails. -/
theorem update_state_root_fatal_on_single_trie_failure_witness :
    ((fun (_ : CommitmentStateDiff) (_ : Nat) => some 5) ⟨[], [], [], []⟩ 0 = none ∨
      (fun (_ : CommitmentStateDiff) (_ : Nat) => (none : Option Nat))
        ⟨[], [], [], []⟩ 0 = none) ∧
    update_state_root (fun _ _ => some 5) (fun _ _ => none) (fun _ => 0)
      ⟨[], [], [], []⟩ 0 = none :=
  ⟨Or.inr rfl,
    update_state_root_fatal_on_single_trie_failure _ _ _ _ _ (Or.inr rfl)⟩

/-- C8: when both sub-computations succeed, the orchestrator returns exactly
the pair of their direct (sequential) results, in the statically assigned
slots (transaction commitment first, event commitment second). -/
theorem tx_and_event_commitments_pair_direct_results {Tx Ev : Type}
    (memory_transaction_commitment : List Tx → Nat → Nat → Option Nat)
    (memory_event_commitment : List Ev → Option Nat)
    (transactions : List Tx) (events : List Ev) (chain_id block_number : Nat)
    (t e : Nat)
    (ht : memory_transaction_commitment transactions chain_id block_number = some t)
    (he : memory_event_commitment events = some e) :
    calculate_tx_and_event_commitments memory_transaction_commitment
      memory_event_commitment transactions events chain_id block_number =
      some (t, e) := by
  simp [calculate_tx_and_event_commitments, ht, he]

/-- Witness for C8 with concrete sub-commitment functions and inputs. -/
theorem tx_and_event_commitments_pair_direct_results_witness :
    (fun (_ : List Nat) (_ : Nat) (_ : Nat) => some 4) [1] 0 0 = some (4 : Nat) ∧
    (fun (_ : List Nat) => some 9) [2] = some (9 : Nat) ∧
    calculate_tx_and_event_commitments (fun _ _ _ => some 4) (fun _ => some 9)
      [1] [2] 0 0 = some (4, 9) :=
  ⟨rfl, rfl,
    tx_and_event_commitments_pair_direct_results _ _ _ _ _ _ 4 9 rfl rfl⟩

theorem mem_imInsert {β : Type} (m : List (Nat × β)) (k : Nat) (v : β)
    (p : Nat × β) (h : p ∈ imInsert m k v) : p = (k, v) ∨ p ∈ m := by
  induction m with
  | nil => simpa [imInsert] using h
  | cons q rest ih =>
    obtain ⟨k', v'⟩ := q
    by_cases hk : k' = k
    · subst hk
      rcases (by simpa [imInsert] using h : p = (k', v) ∨ p ∈ rest) with h' | h'
      · exact Or.inl h'
      · exact Or.inr (List.mem_cons_of_mem _ h')
    · rcases (by simpa [imInsert, hk] using h : p = (k', v') ∨ p ∈ imInsert rest k v)
        with h' | h'
      · exact Or.inr (h' ▸ List.mem_cons_self _ _)
      · rcases ih h' with h'' | h''
        · exact Or.inl h''
        · exact Or.inr (List.mem_cons_of_mem _ h'')

theorem contract_address_from_field_element_eq_some {x a : Nat} :
    contract_address_from_field_element x = some a ↔
      x < PATRICIA_KEY_UPPER_BOUND ∧ a = x := by
  unfold contract_address_from_field_element
  by_cases h : x < PATRICIA_KEY_UPPER_BOUND <;> simp [h, eq_comm]

theorem contract_address_from_field_element_eq_none {x : Nat} :
    contract_address_from_field_element x = none ↔
      ¬ x < PATRICIA_KEY_UPPER_BOUND := by
  unfold contract_address_from_field_element
  by_cases h : x < PATRICIA_KEY_UPPER_BOUND <;> simp [h]

theorem class_hash_from_field_element_eq_some {x a : Nat} :
    class_hash_from_field_element x = some a ↔ x < STARK_PRIME ∧ a = x := by
  unfold class_hash_from_field_element
  by_cases h : x < STARK_PRIME <;> simp [h, eq_comm]

theorem class_hash_from_field_element_eq_none {x : Nat} :
    class_hash_from_field_element x = none ↔ ¬ x < STARK_PRIME := by
  unfold class_hash_from_field_element
  by_cases h : x < STARK_PRIME <;> simp [h]

theorem contract_address_from_field_element_zero :
    contract_address_from_field_element 0 = some 0 := by decide

theorem applyDeployedContract_eq_some {csd csd' : CommitmentStateDiff}
    {it : DeployedContractItem} (h : applyDeployedContract csd it = some csd') :
    ∃ a ch, contract_address_from_field_element it.address = some a ∧
      (if a = 0 then class_hash_from_field_element 0
        else class_hash_from_field_element it.class_hash) = some ch ∧
      csd' = { csd with
        address_to_class_hash := imInsert csd.address_to_class_hash a ch } := by
  unfold applyDeployedContract at h
  rw [contract_address_from_field_element_zero] at h
  cases ha : contract_address_from_field_element it.address with
  | none => rw [ha] at h; exact absurd h (by simp)
  | some a =>
    rw [ha] at h
    simp only [Option.bind_eq_bind, Option.some_bind] at h
    by_cases ha0 : a = 0
    · rw [if_pos ha0] at h
      cases hch : class_hash_from_field_element 0 with
      | none => rw [hch] at h; exact absurd h (by simp)
      | some ch =>
        rw [hch] at h
        simp only [Option.some_bind, Option.pure_def, Option.some.injEq] at h
        exact ⟨a, ch, rfl, by rw [if_pos ha0], h.symm⟩
    · rw [if_neg ha0] at h
      cases hch : class_hash_from_field_element it.class_hash with
      | none => rw [hch] at h; exact absurd h (by simp)
      | some ch =>
        rw [hch] at h
        simp only [Option.some_bind, Option.pure_def, Option.some.injEq] at h
        exact ⟨a, ch, rfl, by rw [if_neg ha0], h.symm⟩

theorem applyReplacedClass_eq_some {csd csd' : CommitmentStateDiff}
    {it : ReplacedClassItem} (h : applyReplacedClass csd it = some csd') :
    ∃ a ch, contract_address_from_field_element it.contract_address = some a ∧
      class_hash_from_field_element it.class_hash = some ch ∧
      csd' = { csd with
        address_to_class_hash := imInsert csd.address_to_class_hash a ch } := by
  simp only [applyReplacedClass, Option.bind_eq_bind, Option.bind_eq_some,
    Option.pure_def, Option.some.injEq] at h
  obtain ⟨a, ha, ch, hch, hcsd⟩ := h
  exact ⟨a, ch, ha, hch, hcsd.symm⟩

theorem applyDeclaredClass_eq_some {csd csd' : CommitmentStateDiff}
    {it : DeclaredClassItem} (h : applyDeclaredClass csd it = some csd') :
    ∃ ch cch, class_hash_from_field_element it.class_hash = some ch ∧
      compiled_class_hash_from_field_element it.compiled_class_hash = some cch ∧
      csd' = { csd with
        class_hash_to_compiled_class_hash :=
          imInsert csd.class_hash_to_compiled_class_hash ch cch } := by
  simp only [applyDeclaredClass, Option.bind_eq_bind, Option.bind_eq_some,
    Option.pure_def, Option.some.injEq] at h
  obtain ⟨ch, hch, cch, hcch, hcsd⟩ := h
  exact ⟨ch, cch, hch, hcch, hcsd.symm⟩

theorem applyNonceUpdate_eq_some {csd csd' : CommitmentStateDiff}
    {it : NonceUpdate} (h : applyNonceUpdate csd it = some csd') :
    ∃ a n, contract_address_from_field_element it.contract_address = some a ∧
      nonce_from_field_element it.nonce = some n ∧
      csd' = { csd with
        address_to_nonce := imInsert csd.address_to_nonce a n } := by
  simp only [applyNonceUpdate, Option.bind_eq_bind, Option.bind_eq_some,
    Option.pure_def, Option.some.injEq] at h
  obtain ⟨a, ha, n, hn, hcsd⟩ := h
  exact ⟨a, n, ha, hn, hcsd.symm⟩

theorem applyStorageDiff_eq_some {csd csd' : CommitmentStateDiff}
    {it : ContractStorageDiffItem} (h : applyStorageDiff csd it = some csd') :
    ∃ a sm, contract_address_from_field_element it.address = some a ∧
      buildStorageMap it.storage_entries = some sm ∧
      csd' = { csd with
        storage_updates := imInsert csd.storage_updates a sm } := by
  simp only [applyStorageDiff, Option.bind_eq_bind, Option.bind_eq_some,
    Option.pure_def, Option.some.injEq] at h
  obtain ⟨a, ha, sm, hsm, hcsd⟩ := h
  exact ⟨a, sm, ha, hsm, hcsd.symm⟩

theorem build_commitment_state_diff_decomp {su : StateUpdate}
    {csd : CommitmentStateDiff} (h : build_commitment_state_diff su = some csd) :
    ∃ c1 c2 c3 c4,
      su.state_diff.deployed_contracts.foldlM applyDeployedContract
        ⟨[], [], [], []⟩ = some c1 ∧
      su.state_diff.replaced_classes.foldlM applyReplacedClass c1 = some c2 ∧
      su.state_diff.declared_classes.foldlM applyDeclaredClass c2 = some c3 ∧
      su.state_diff.nonces.foldlM applyNonceUpdate c3 = some c4 ∧
      su.state_diff.storage_diffs.foldlM applyStorageDiff c4 = some csd := by
  simp only [build_commitment_state_diff, Option.bind_eq_bind,
    Option.bind_eq_some] at h
  obtain ⟨c1, h1, c2, h2, c3, h3, c4, h4, h5⟩ := h
  exact ⟨c1, c2, c3, c4, h1, h2, h3, h4, h5⟩

theorem declared_fold_preserves_a2ch {l : List DeclaredClassItem}
    {init res : CommitmentStateDiff} (h : l.foldlM applyDeclaredClass init = some res) :
    res.address_to_class_hash = init.address_to_class_hash :=
  foldlM_option_inv applyDeclaredClass
    (fun c => c.address_to_class_hash = init.address_to_class_hash) l init res
    (fun b x b' _ hb hP => by
      obtain ⟨ch, cch, _, _, hc⟩ := applyDeclaredClass_eq_some hb
      subst hc; simpa using hP)
    h rfl

theorem nonce_fold_preserves_a2ch {l : List NonceUpdate}
    {init res : CommitmentStateDiff} (h : l.foldlM applyNonceUpdate init = some res) :
    res.address_to_class_hash = init.address_to_class_hash :=
  foldlM_option_inv applyNonceUpdate
    (fun c => c.address_to_class_hash = init.address_to_class_hash) l init res
    (fun b x b' _ hb hP => by
      obtain ⟨a, n, _, _, hc⟩ := applyNonceUpdate_eq_some hb
      subst hc; simpa using hP)
    h rfl

theorem storage_fold_preserves_a2ch {l : List ContractStorageDiffItem}
    {init res : CommitmentStateDiff} (h : l.foldlM applyStorageDiff init = some res) :
    res.address_to_class_hash = init.address_to_class_hash :=
  foldlM_option_inv applyStorageDiff
    (fun c => c.address_to_class_hash = init.address_to_class_hash) l init res
    (fun b x b' _ hb hP => by
      obtain ⟨a, sm, _, _, hc⟩ := applyStorageDiff_eq_some hb
      subst hc; simpa using hP)
    h rfl

theorem deployed_fold_last_lookup {g : DeployedContractItem}
    {L₂ : List DeployedContractItem} {a : Nat} {init res : CommitmentStateDiff}
    (ha : contract_address_from_field_element g.address = some a)
    (hL₂ : ∀ g' ∈ L₂, contract_address_from_field_element g'.address ≠ some a)
    (hfold : (g :: L₂).foldlM applyDeployedContract init = some res) :
    imLookup res.address_to_class_hash a =
      some (if a = 0 then 0 else g.class_hash) := by
  obtain ⟨b, hstep, hrest⟩ := foldlM_option_cons_some hfold
  obtain ⟨a', ch, ha', hch, hb⟩ := applyDeployedContract_eq_some hstep
  have haa : a = a' := Option.some.inj (ha.symm.trans ha')
  subst haa
  have hchv : ch = if a = 0 then 0 else g.class_hash := by
    by_cases ha0 : a = 0
    · rw [if_pos ha0] at hch ⊢
      exact (class_hash_from_field_element_eq_some.mp hch).2
    · rw [if_neg ha0] at hch ⊢
      exact (class_hash_from_field_element_eq_some.mp hch).2
  subst hchv
  subst hb
  exact foldlM_option_inv applyDeployedContract
    (fun c => imLookup c.address_to_class_hash a =
      some (if a = 0 then 0 else g.class_hash)) L₂ _ res
    (fun b' x b'' hx hb' hP => by
      obtain ⟨a'', ch'', ha'', _, hc⟩ := applyDeployedContract_eq_some hb'
      have hne : a ≠ a'' := fun hEq => hL₂ x hx (hEq ▸ ha'')
      subst hc
      simpa [imLookup_imInsert_ne _ _ _ _ hne] using hP)
    hrest (by simp [imLookup_imInsert_self])

theorem replaced_fold_last_lookup {g : ReplacedClassItem}
    {L₂ : List ReplacedClassItem} {a h_ch : Nat} {init res : CommitmentStateDiff}
    (ha : contract_address_from_field_element g.contract_address = some a)
    (hch : class_hash_from_field_element g.class_hash = some h_ch)
    (hL₂ : ∀ g' ∈ L₂, contract_address_from_field_element g'.contract_address ≠ some a)
    (hfold : (g :: L₂).foldlM applyReplacedClass init = some res) :
    imLookup res.address_to_class_hash a = some h_ch := by
  obtain ⟨b, hstep, hrest⟩ := foldlM_option_cons_some hfold
  obtain ⟨a', ch, ha', hch', hb⟩ := applyReplacedClass_eq_some hstep
  have haa : a = a' := Option.some.inj (ha.symm.trans ha')
  subst haa
  have hchv : ch = h_ch := Option.some.inj (hch'.symm.trans hch)
  subst hchv
  subst hb
  exact foldlM_option_inv applyReplacedClass
    (fun c => imLookup c.address_to_class_hash a = some ch) L₂ _ res
    (fun b' x b'' hx hb' hP => by
      obtain ⟨a'', ch'', ha'', _, hc⟩ := applyReplacedClass_eq_some hb'
      have hne : a ≠ a'' := fun hEq => hL₂ x hx (hEq ▸ ha'')
      subst hc
      simpa [imLookup_imInsert_ne _ _ _ _ hne] using hP)
    hrest (by simp [imLookup_imInsert_self])

theorem storage_fold_last_lookup {g : ContractStorageDiffItem}
    {L₂ : List ContractStorageDiffItem} {a : Nat} {init res : CommitmentStateDiff}
    (ha : contract_address_from_field_element g.address = some a)
    (hL₂ : ∀ g' ∈ L₂, contract_address_from_field_element g'.address ≠ some a)
    (hfold : (g :: L₂).foldlM applyStorageDiff init = some res) :
    ∃ sm, buildStorageMap g.storage_entries = some sm ∧
      imLookup res.storage_updates a = some sm := by
  obtain ⟨b, hstep, hrest⟩ := foldlM_option_cons_some hfold
  obtain ⟨a', sm, ha', hsm, hb⟩ := applyStorageDiff_eq_some hstep
  have haa : a = a' := Option.some.inj (ha.symm.trans ha')
  subst haa
  subst hb
  refine ⟨sm, hsm, ?_⟩
  exact foldlM_option_inv applyStorageDiff
    (fun c => imLookup c.storage_updates a = some sm) L₂ _ res
    (fun b' x b'' hx hb' hP => by
      obtain ⟨a'', sm'', ha'', _, hc⟩ := applyStorageDiff_eq_some hb'
      have hne : a ≠ a'' := fun hEq => hL₂ x hx (hEq ▸ ha'')
      subst hc
      simpa [imLookup_imInsert_ne _ _ _ _ hne] using hP)
    hrest (by simp [imLookup_imInsert_self])

theorem storage_fold_mem_keys {l : List ContractStorageDiffItem}
    {g : ContractStorageDiffItem} {a : Nat} {init res : CommitmentStateDiff}
    (hg : g ∈ l) (ha : contract_address_from_field_element g.address = some a)
    (hfold : l.foldlM applyStorageDiff init = some res) :
    a ∈ imKeys res.storage_updates := by
  obtain ⟨l₁, l₂, rfl⟩ := List.append_of_mem hg
  rw [foldlM_option_append] at hfold
  cases hmid : l₁.foldlM applyStorageDiff init with
  | none => rw [hmid] at hfold; exact absurd hfold (by simp)
  | some mid =>
    rw [hmid] at hfold
    simp only [Option.some_bind] at hfold
    obtain ⟨b, hstep, hrest⟩ := foldlM_option_cons_some hfold
    obtain ⟨a', sm, ha', hsm, hb⟩ := applyStorageDiff_eq_some hstep
    have haa : a = a' := Option.some.inj (ha.symm.trans ha')
    subst haa
    subst hb
    exact foldlM_option_inv applyStorageDiff
      (fun c => a ∈ imKeys c.storage_updates) l₂ _ res
      (fun b' x b'' hx hb' hP => by
        obtain ⟨a'', sm'', _, _, hc⟩ := applyStorageDiff_eq_some hb'
        subst hc
        exact (mem_imKeys_imInsert _ _ _ _).mpr (Or.inr hP))
      hrest ((mem_imKeys_imInsert _ _ _ _).mpr (Or.inl rfl))

/-- C3: a deployed-contract entry whose address narrows to the zero address
stores the zero class hash regardless of the supplied class hash, and an
entry with a non-zero address stores the supplied (narrowed) class hash.
Stated for the last entry of its address (with no replaced classes, which
are processed later into the same map). -/
theorem deployed_zero_address_forces_zero_class_hash
    {su : StateUpdate} {csd : CommitmentStateDiff}
    {L₁ L₂ : List DeployedContractItem} {g : DeployedContractItem} {a : Nat}
    (hsplit : su.state_diff.deployed_contracts = L₁ ++ g :: L₂)
    (hrep : su.state_diff.replaced_classes = [])
    (ha : contract_address_from_field_element g.address = some a)
    (hL₂ : ∀ g' ∈ L₂, contract_address_from_field_element g'.address ≠ some a)
    (hbuild : build_commitment_state_diff su = some csd) :
    imLookup csd.address_to_class_hash a =
      some (if a = 0 then 0 else g.class_hash) := by
  obtain ⟨c1, c2, c3, c4, h1, h2, h3, h4, h5⟩ :=
    build_commitment_state_diff_decomp hbuild
  rw [hsplit, foldlM_option_append] at h1
  cases hmid : L₁.foldlM applyDeployedContract ⟨[], [], [], []⟩ with
  | none => rw [hmid] at h1; exact absurd h1 (by simp)
  | some mid =>
    rw [hmid] at h1
    simp only [Option.some_bind] at h1
    have hlook := deployed_fold_last_lookup ha hL₂ h1
    rw [hrep] at h2
    have hc2 : c1 = c2 := by simpa [List.foldlM] using h2
    subst hc2
    rw [storage_fold_preserves_a2ch h5, nonce_fold_preserves_a2ch h4,
      declared_fold_preserves_a2ch h3]
    exact hlook

/-- Witness for C3: the single deployed entry (address 0, class hash 77)
yields address 0 mapped to class hash 0. -/
theorem deployed_zero_address_forces_zero_class_hash_witness :
    (StateUpdate.mk ⟨[⟨0, 77⟩], [], [], [], []⟩).state_diff.deployed_contracts =
        [] ++ ⟨0, 77⟩ :: [] ∧
    contract_address_from_field_element (0 : Nat) = some 0 ∧
    build_commitment_state_diff ⟨⟨[⟨0, 77⟩], [], [], [], []⟩⟩ =
      some ⟨[(0, 0)], [], [], []⟩ ∧
    imLookup ([(0, 0)] : List (Nat × Nat)) 0 = some (if (0 : Nat) = 0 then 0 else 77) :=
  ⟨rfl, by decide, by decide,
    @deployed_zero_address_forces_zero_class_hash ⟨⟨[⟨0, 77⟩], [], [], [], []⟩⟩
      ⟨[(0, 0)], [], [], []⟩ [] [] ⟨0, 77⟩ 0 rfl rfl (by decide) (by simp)
      (by decide)⟩

/-- C4: when the same (narrowed) contract address heads several storage-diff
groups, the aggregated diff maps it to exactly the per-contract map built
from the last such group — wholesale replacement, not a union. -/
theorem storage_diff_last_write_wins
    {su : StateUpdate} {csd : CommitmentStateDiff}
    {L₁ L₂ : List ContractStorageDiffItem} {g : ContractStorageDiffItem} {a : Nat}
    (hsplit : su.state_diff.storage_diffs = L₁ ++ g :: L₂)
    (ha : contract_address_from_field_element g.address = some a)
    (hL₂ : ∀ g' ∈ L₂, contract_address_from_field_element g'.address ≠ some a)
    (hbuild : build_commitment_state_diff su = some csd) :
    ∃ sm, buildStorageMap g.storage_entries = some sm ∧
      imLookup csd.storage_updates a = some sm := by
  obtain ⟨c1, c2, c3, c4, h1, h2, h3, h4, h5⟩ :=
    build_commitment_state_diff_decomp hbuild
  rw [hsplit, foldlM_option_append] at h5
  cases hmid : L₁.foldlM applyStorageDiff c4 with
  | none => rw [hmid] at h5; exact absurd h5 (by simp)
  | some mid =>
    rw [hmid] at h5
    simp only [Option.some_bind] at h5
    exact storage_fold_last_lookup ha hL₂ h5

/-- Witness for C4: address 5 appears in two storage-diff groups with
disjoint keys; only the last group's map {3 ↦ 4} survives. -/
theorem storage_diff_last_write_wins_witness :
    (StateUpdate.mk ⟨[], [], [], [], [⟨5, [⟨1, 2⟩]⟩, ⟨5, [⟨3, 4⟩]⟩]⟩).state_diff.storage_diffs =
        [⟨5, [⟨1, 2⟩]⟩] ++ ⟨5, [⟨3, 4⟩]⟩ :: [] ∧
    build_commitment_state_diff ⟨⟨[], [], [], [], [⟨5, [⟨1, 2⟩]⟩, ⟨5, [⟨3, 4⟩]⟩]⟩⟩ =
      some ⟨[], [], [(5, [(3, 4)])], []⟩ ∧
    ∃ sm, buildStorageMap [⟨3, 4⟩] = some sm ∧
      imLookup ([(5, [(3, 4)])] : List (Nat × List (Nat × Nat))) 5 = some sm :=
  ⟨rfl, by decide,
    @storage_diff_last_write_wins ⟨⟨[], [], [], [], [⟨5, [⟨1, 2⟩]⟩, ⟨5, [⟨3, 4⟩]⟩]⟩⟩
      ⟨[], [], [(5, [(3, 4)])], []⟩ [⟨5, [⟨1, 2⟩]⟩] [] ⟨5, [⟨3, 4⟩]⟩ 5 rfl
      (by decide) (by simp) (by decide)⟩

/-- C5: a replaced-class entry stores the supplied (narrowed) class hash with
no zero-address special case — including entries whose address narrows to
zero. Stated for the last replaced entry of its address (replaced classes
are the last writes into the address-to-class-hash map). -/
theorem replaced_class_no_zero_address_special_case
    {su : StateUpdate} {csd : CommitmentStateDiff}
    {L₁ L₂ : List ReplacedClassItem} {g : ReplacedClassItem} {a h_ch : Nat}
    (hsplit : su.state_diff.replaced_classes = L₁ ++ g :: L₂)
    (ha : contract_address_from_field_element g.contract_address = some a)
    (hch : class_hash_from_field_element g.class_hash = some h_ch)
    (hL₂ : ∀ g' ∈ L₂, contract_address_from_field_element g'.contract_address ≠ some a)
    (hbuild : build_commitment_state_diff su = some csd) :
    imLookup csd.address_to_class_hash a = some h_ch := by
  obtain ⟨c1, c2, c3, c4, h1, h2, h3, h4, h5⟩ :=
    build_commitment_state_diff_decomp hbuild
  rw [hsplit, foldlM_option_append] at h2
  cases hmid : L₁.foldlM applyReplacedClass c1 with
  | none => rw [hmid] at h2; exact absurd h2 (by simp)
  | some mid =>
    rw [hmid] at h2
    simp only [Option.some_bind] at h2
    have hlook := replaced_fold_last_lookup ha hch hL₂ h2
    rw [storage_fold_preserves_a2ch h5, nonce_fold_preserves_a2ch h4,
      declared_fold_preserves_a2ch h3]
    exact hlook

/-- Witness for C5: the replaced-class entry (address 0, class hash 7) stores
class hash 7 at address 0 — not the forced zero class hash. -/
theorem replaced_class_no_zero_address_special_case_witness :
    (StateUpdate.mk ⟨[], [⟨0, 7⟩], [], [], []⟩).state_diff.replaced_classes =
        [] ++ ⟨0, 7⟩ :: [] ∧
    build_commitment_state_diff ⟨⟨[], [⟨0, 7⟩], [], [], []⟩⟩ =
      some ⟨[(0, 7)], [], [], []⟩ ∧
    imLookup ([(0, 7)] : List (Nat × Nat)) 0 = some 7 :=
  ⟨rfl, by decide,
    @replaced_class_no_zero_address_special_case ⟨⟨[], [⟨0, 7⟩], [], [], []⟩⟩
      ⟨[(0, 7)], [], [], []⟩ [] [] ⟨0, 7⟩ 0 7 rfl (by decide) (by decide)
      (by simp) (by decide)⟩

/-- C10: a storage-diff group with an empty entry list still inserts its
(narrowed) contract address as a key of the address-to-storage map; when no
later group reuses the address, the address maps to the empty map. -/
theorem empty_storage_group_still_inserted
    {su : StateUpdate} {csd : CommitmentStateDiff}
    {L₁ L₂ : List ContractStorageDiffItem} {g : ContractStorageDiffItem} {a : Nat}
    (hsplit : su.state_diff.storage_diffs = L₁ ++ g :: L₂)
    (hempty : g.storage_entries = [])
    (ha : contract_address_from_field_element g.address = some a)
    (hbuild : build_commitment_state_diff su = some csd) :
    a ∈ imKeys csd.storage_updates ∧
      ((∀ g' ∈ L₂, contract_address_from_field_element g'.address ≠ some a) →
        imLookup csd.storage_updates a = some []) := by
  obtain ⟨c1, c2, c3, c4, h1, h2, h3, h4, h5⟩ :=
    build_commitment_state_diff_decomp hbuild
  rw [hsplit] at h5
  constructor
  · exact storage_fold_mem_keys (by simp) ha h5
  · intro hL₂
    rw [foldlM_option_append] at h5
    cases hmid : L₁.foldlM applyStorageDiff c4 with
    | none => rw [hmid] at h5; exact absurd h5 (by simp)
    | some mid =>
      rw [hmid] at h5
      simp only [Option.some_bind] at h5
      obtain ⟨sm, hsm, hlook⟩ := storage_fold_last_lookup ha hL₂ h5
      rw [hempty] at hsm
      have hsm0 : sm = [] := by
        have : buildStorageMap [] = some [] := rfl
        exact (Option.some.inj (this.symm.trans hsm)).symm
      exact hsm0 ▸ hlook

/-- Witness for C10: a single group (address 5, no entries) yields address 5
present, mapped to the empty storage map. -/
theorem empty_storage_group_still_inserted_witness :
    (StateUpdate.mk ⟨[], [], [], [], [⟨5, []⟩]⟩).state_diff.storage_diffs =
        [] ++ ⟨5, []⟩ :: [] ∧
    build_commitment_state_diff ⟨⟨[], [], [], [], [⟨5, []⟩]⟩⟩ =
      some ⟨[], [], [(5, [])], []⟩ ∧
    (5 ∈ imKeys ([(5, [])] : List (Nat × List (Nat × Nat))) ∧
      ((∀ g' ∈ ([] : List ContractStorageDiffItem),
          contract_address_from_field_element g'.address ≠ some 5) →
        imLookup ([(5, [])] : List (Nat × List (Nat × Nat))) 5 = some [])) :=
  ⟨rfl, by decide,
    @empty_storage_group_still_inserted ⟨⟨[], [], [], [], [⟨5, []⟩]⟩⟩
      ⟨[], [], [(5, [])], []⟩ [] [] ⟨5, []⟩ 5 rfl rfl (by decide) (by decide)⟩

theorem buildStorageMap_keys_nodup {entries : List StorageEntry}
    {sm : List (Nat × Nat)} (h : buildStorageMap entries = some sm) :
    (imKeys sm).Nodup := by
  refine foldlM_option_inv _ (fun m => (imKeys m).Nodup) entries [] sm ?_ h
    (by simp [imKeys])
  intro b x b' _ hb hP
  simp only [Option.bind_eq_bind, Option.bind_eq_some, Option.pure_def,
    Option.some.injEq] at hb
  obtain ⟨k, hk, v, hv, hb'⟩ := hb
  exact hb' ▸ imKeys_nodup_imInsert b k v hP

theorem applyDeployedContract_preserves_keys_unique
    {b b' : CommitmentStateDiff} {x : DeployedContractItem}
    (hb : applyDeployedContract b x = some b') (hP : csd_keys_unique b) :
    csd_keys_unique b' := by
  obtain ⟨a, ch, _, _, hc⟩ := applyDeployedContract_eq_some hb
  obtain ⟨u1, u2, u3, u4, u5⟩ := hP
  subst hc
  exact ⟨imKeys_nodup_imInsert _ _ _ u1, u2, u3, u4, u5⟩

theorem applyReplacedClass_preserves_keys_unique
    {b b' : CommitmentStateDiff} {x : ReplacedClassItem}
    (hb : applyReplacedClass b x = some b') (hP : csd_keys_unique b) :
    csd_keys_unique b' := by
  obtain ⟨a, ch, _, _, hc⟩ := applyReplacedClass_eq_some hb
  obtain ⟨u1, u2, u3, u4, u5⟩ := hP
  subst hc
  exact ⟨imKeys_nodup_imInsert _ _ _ u1, u2, u3, u4, u5⟩

theorem applyDeclaredClass_preserves_keys_unique
    {b b' : CommitmentStateDiff} {x : DeclaredClassItem}
    (hb : applyDeclaredClass b x = some b') (hP : csd_keys_unique b) :
    csd_keys_unique b' := by
  obtain ⟨ch, cch, _, _, hc⟩ := applyDeclaredClass_eq_some hb
  obtain ⟨u1, u2, u3, u4, u5⟩ := hP
  subst hc
  exact ⟨u1, u2, u3, imKeys_nodup_imInsert _ _ _ u4, u5⟩

theorem applyNonceUpdate_preserves_keys_unique
    {b b' : CommitmentStateDiff} {x : NonceUpdate}
    (hb : applyNonceUpdate b x = some b') (hP : csd_keys_unique b) :
    csd_keys_unique b' := by
  obtain ⟨a, n, _, _, hc⟩ := applyNonceUpdate_eq_some hb
  obtain ⟨u1, u2, u3, u4, u5⟩ := hP
  subst hc
  exact ⟨u1, imKeys_nodup_imInsert _ _ _ u2, u3, u4, u5⟩

theorem applyStorageDiff_preserves_keys_unique
    {b b' : CommitmentStateDiff} {x : ContractStorageDiffItem}
    (hb : applyStorageDiff b x = some b') (hP : csd_keys_unique b) :
    csd_keys_unique b' := by
  obtain ⟨a, sm, _, hsm, hc⟩ := applyStorageDiff_eq_some hb
  obtain ⟨u1, u2, u3, u4, u5⟩ := hP
  subst hc
  refine ⟨u1, u2, imKeys_nodup_imInsert _ _ _ u3, u4, ?_⟩
  intro p hp
  rcases mem_imInsert _ _ _ _ hp with hp' | hp'
  · exact hp' ▸ buildStorageMap_keys_nodup hsm
  · exact u5 p hp'

/-- C9: the four maps of every successfully aggregated Commitment State Diff
are key-unique, and so is every per-contract storage map inside it. -/
theorem aggregated_diff_keys_unique {su : StateUpdate} {csd : CommitmentStateDiff}
    (h : build_commitment_state_diff su = some csd) : csd_keys_unique csd := by
  obtain ⟨c1, c2, c3, c4, h1, h2, h3, h4, h5⟩ :=
    build_commitment_state_diff_decomp h
  have i0 : csd_keys_unique ⟨[], [], [], []⟩ := by
    refine ⟨by simp [imKeys], by simp [imKeys], by simp [imKeys],
      by simp [imKeys], ?_⟩
    intro p hp
    simp at hp
  have i1 := foldlM_option_inv applyDeployedContract csd_keys_unique _ _ _
    (fun b x b' _ hb hP => applyDeployedContract_preserves_keys_unique hb hP) h1 i0
  have i2 := foldlM_option_inv applyReplacedClass csd_keys_unique _ _ _
    (fun b x b' _ hb hP => applyReplacedClass_preserves_keys_unique hb hP) h2 i1
  have i3 := foldlM_option_inv applyDeclaredClass csd_keys_unique _ _ _
    (fun b x b' _ hb hP => applyDeclaredClass_preserves_keys_unique hb hP) h3 i2
  have i4 := foldlM_option_inv applyNonceUpdate csd_keys_unique _ _ _
    (fun b x b' _ hb hP => applyNonceUpdate_preserves_keys_unique hb hP) h4 i3
  exact foldlM_option_inv applyStorageDiff csd_keys_unique _ _ _
    (fun b x b' _ hb hP => applyStorageDiff_preserves_keys_unique hb hP) h5 i4

/-- Witness for C9 on a state update exercising all five categories,
including a duplicated address and storage key. -/
theorem aggregated_diff_keys_unique_witness :
    build_commitment_state_diff
        ⟨⟨[⟨5, 7⟩, ⟨5, 8⟩], [⟨6, 9⟩], [⟨7, 10⟩], [⟨5, 1⟩],
          [⟨5, [⟨1, 2⟩, ⟨1, 3⟩]⟩, ⟨5, [⟨4, 5⟩]⟩]⟩⟩ =
      some ⟨[(5, 8), (6, 9)], [(5, 1)], [(5, [(4, 5)])], [(7, 10)]⟩ ∧
    csd_keys_unique ⟨[(5, 8), (6, 9)], [(5, 1)], [(5, [(4, 5)])], [(7, 10)]⟩ :=
  ⟨by decide,
    @aggregated_diff_keys_unique
      ⟨⟨[⟨5, 7⟩, ⟨5, 8⟩], [⟨6, 9⟩], [⟨7, 10⟩], [⟨5, 1⟩],
        [⟨5, [⟨1, 2⟩, ⟨1, 3⟩]⟩, ⟨5, [⟨4, 5⟩]⟩]⟩⟩
      ⟨[(5, 8), (6, 9)], [(5, 1)], [(5, [(4, 5)])], [(7, 10)]⟩ (by decide)⟩

/-- C6: on a raw state update (with well-formed field elements) containing a
field element whose narrowing into its target domain type fails, the whole
aggregation fails and surfaces an error instead of any (half-built or
coerced) Commitment State Diff. -/
theorem narrowing_failure_aborts_aggregation {su : StateUpdate}
    (hvalid : state_update_felts_valid su) (hfail : has_narrowing_failure su) :
    build_commitment_state_diff su = none := by
  obtain ⟨v1, v2, v3, v4, v5⟩ := hvalid
  rcases hfail with ⟨it, hit, hbad⟩ | ⟨it, hit, hbad⟩ | ⟨it, hit, hbad⟩ |
    ⟨it, hit, hbad⟩ | ⟨it, hit, hbad⟩
  · rcases hbad with hbad | hbad
    · have hstep : ∀ b, applyDeployedContract b it = none := fun b => by
        simp [applyDeployedContract, hbad]
      have hfold := foldlM_option_none applyDeployedContract it hstep
        su.state_diff.deployed_contracts ⟨[], [], [], []⟩ hit
      simp [build_commitment_state_diff, hfold]
    · exact absurd (v1 it hit).2 (class_hash_from_field_element_eq_none.mp hbad)
  · rcases hbad with hbad | hbad
    · have hstep : ∀ b, applyReplacedClass b it = none := fun b => by
        simp [applyReplacedClass, hbad]
      cases h1 : su.state_diff.deployed_contracts.foldlM applyDeployedContract
          ⟨[], [], [], []⟩ with
      | none => simp [build_commitment_state_diff, h1]
      | some c1 =>
        have hfold := foldlM_option_none applyReplacedClass it hstep
          su.state_diff.replaced_classes c1 hit
        simp [build_commitment_state_diff, h1, hfold]
    · exact absurd (v2 it hit).2 (class_hash_from_field_element_eq_none.mp hbad)
  · rcases hbad with hbad | hbad
    · exact absurd (v3 it hit).1 (class_hash_from_field_element_eq_none.mp hbad)
    · exact absurd (v3 it hit).2 (by
        unfold compiled_class_hash_from_field_element at hbad
        by_cases h : it.compiled_class_hash < STARK_PRIME <;> simp [h] at hbad ⊢)
  · rcases hbad with hbad | hbad
    · have hstep : ∀ b, applyNonceUpdate b it = none := fun b => by
        simp [applyNonceUpdate, hbad]
      cases h1 : su.state_diff.deployed_contracts.foldlM applyDeployedContract
          ⟨[], [], [], []⟩ with
      | none => simp [build_commitment_state_diff, h1]
      | some c1 =>
        cases h2 : su.state_diff.replaced_classes.foldlM applyReplacedClass c1 with
        | none => simp [build_commitment_state_diff, h1, h2]
        | some c2 =>
          cases h3 : su.state_diff.declared_classes.foldlM applyDeclaredClass c2 with
          | none => simp [build_commitment_state_diff, h1, h2, h3]
          | some c3 =>
            have hfold := foldlM_option_none applyNonceUpdate it hstep
              su.state_diff.nonces c3 hit
            simp [build_commitment_state_diff, h1, h2, h3, hfold]
    · exact absurd (v4 it hit).2 (by
        unfold nonce_from_field_element at hbad
        by_cases h : it.nonce < STARK_PRIME <;> simp [h] at hbad ⊢)
  · have hstep : ∀ b, applyStorageDiff b it = none := by
      rcases hbad with hbad | ⟨e, he, hbad'⟩
      · intro b
        simp [applyStorageDiff, hbad]
      · rcases hbad' with hbad' | hbad'
        · have hsm : buildStorageMap it.storage_entries = none := by
            apply foldlM_option_none _ e _ it.storage_entries [] he
            intro m
            simp [hbad']
          intro b
          cases haddr : contract_address_from_field_element it.address <;>
            simp [applyStorageDiff, haddr, hsm]
        · exact absurd ((v5 it hit).2 e he).2 (by
            unfold stark_felt_from_field_element at hbad'
            by_cases h : e.value < STARK_PRIME <;> simp [h] at hbad' ⊢)
    cases h1 : su.state_diff.deployed_contracts.foldlM applyDeployedContract
        ⟨[], [], [], []⟩ with
    | none => simp [build_commitment_state_diff, h1]
    | some c1 =>
      cases h2 : su.state_diff.replaced_classes.foldlM applyReplacedClass c1 with
      | none => simp [build_commitment_state_diff, h1, h2]
      | some c2 =>
        cases h3 : su.state_diff.declared_classes.foldlM applyDeclaredClass c2 with
        | none => simp [build_commitment_state_diff, h1, h2, h3]
        | some c3 =>
          cases h4 : su.state_diff.nonces.foldlM applyNonceUpdate c3 with
          | none => simp [build_commitment_state_diff, h1, h2, h3, h4]
          | some c4 =>
            have hfold := foldlM_option_none applyStorageDiff it hstep
              su.state_diff.storage_diffs c4 hit
            simp [build_commitment_state_diff, h1, h2, h3, h4, hfold]

/-- Witness for C6: a deployed-contract address of 2^251 is a well-formed
field element that exceeds the address range; aggregation returns no diff. -/
theorem narrowing_failure_aborts_aggregation_witness :
    state_update_felts_valid ⟨⟨[⟨2 ^ 251, 7⟩], [], [], [], []⟩⟩ ∧
    has_narrowing_failure ⟨⟨[⟨2 ^ 251, 7⟩], [], [], [], []⟩⟩ ∧
    build_commitment_state_diff ⟨⟨[⟨2 ^ 251, 7⟩], [], [], [], []⟩⟩ = none :=
  ⟨by unfold state_update_felts_valid; decide,
    by unfold has_narrowing_failure; decide,
    @narrowing_failure_aborts_aggregation ⟨⟨[⟨2 ^ 251, 7⟩], [], [], [], []⟩⟩
      (by unfold state_update_felts_valid; decide)
      (by unfold has_narrowing_failure; decide)⟩

